import Mathlib

/-!
Shallow embedding of the heuristic dialogue-manager core of the CrewAI DM
orchestrator service (`crewai-service/main.py`): roll-total extraction from a
player message, pending-roll resolution from bounded conversation history,
outcome evaluation, lettered option menus, new-roll-request classification,
and option normalization.  Strings are modelled as `List Char`; Python's
case folding and the regex classes `\w`/`\d` are modelled at ASCII level
(all string constants appearing in the source are ASCII).  Python whitespace
(`str.strip`, regex `\s`) and `str.splitlines` boundaries are modelled with
their exact code-point sets.
-/

namespace DMCore

/-- Python whitespace (`str.isspace`, regex `\s`): exact code-point set. -/
def isSpacePy (c : Char) : Bool :=
  let n := c.toNat
  (9 ≤ n && n ≤ 13) || (28 ≤ n && n ≤ 32) || n == 0x85 || n == 0xa0 ||
  n == 0x1680 || (0x2000 ≤ n && n ≤ 0x200a) || n == 0x2028 || n == 0x2029 ||
  n == 0x202f || n == 0x205f || n == 0x3000

/-- Python `str.splitlines` line-boundary characters: exact code-point set. -/
def isLineBreak (c : Char) : Bool :=
  let n := c.toNat
  (10 ≤ n && n ≤ 13) || (28 ≤ n && n ≤ 30) || n == 0x85 || n == 0x2028 || n == 0x2029

/-- ASCII decimal digit (regex `\d` on the ASCII inputs of this service). -/
def isDigitC (c : Char) : Bool :=
  48 ≤ c.toNat && c.toNat ≤ 57

/-- Regex word character `\w` (ASCII model): letter, digit or underscore. -/
def isWordC (c : Char) : Bool :=
  (65 ≤ c.toNat && c.toNat ≤ 90) || (97 ≤ c.toNat && c.toNat ≤ 122) ||
  isDigitC c || c == '_'

/-- ASCII lower-casing of one character (model of Python `str.lower`). -/
def toLowerC (c : Char) : Char :=
  if 65 ≤ c.toNat && c.toNat ≤ 90 then Char.ofNat (c.toNat + 32) else c

/-- ASCII upper-casing of one character (used by the `str.title` model). -/
def toUpperC (c : Char) : Char :=
  if 97 ≤ c.toNat && c.toNat ≤ 122 then Char.ofNat (c.toNat - 32) else c

/-- ASCII letter test (used by the `str.title` model). -/
def isAlphaC (c : Char) : Bool :=
  (65 ≤ c.toNat && c.toNat ≤ 90) || (97 ≤ c.toNat && c.toNat ≤ 122)

/-- Model of Python `str.lower` on a character list. -/
def lowerL (s : List Char) : List Char := s.map toLowerC

/-- Does `pre` occur at the head of `l`?  If so return the remainder. -/
def stripHead : List Char → List Char → Option (List Char)
  | [], l => some l
  | _ :: _, [] => none
  | a :: as, b :: bs => if a = b then stripHead as bs else none

/-- Python substring test `needle in hay` (empty needle always matches). -/
def hasSub (needle : List Char) : List Char → Bool
  | [] => (stripHead needle []).isSome
  | c :: t => (stripHead needle (c :: t)).isSome || hasSub needle t

/-- Numeric value of a run of ASCII digits (Python `int` on a `\d+` capture). -/
def digitsToNat (ds : List Char) : Nat :=
  ds.foldl (fun n c => n * 10 + (c.toNat - 48)) 0

/-- A regex word boundary holds between `prev` and the next character when the
match starts on a word character: `prev` must be absent or a non-word char. -/
def wbBefore (prev : Option Char) : Bool :=
  match prev with
  | none => true
  | some c => !isWordC c

/-- A regex word boundary directly after a digit run: the remainder must be
empty or start with a non-word character. -/
def wbAfter : List Char → Bool
  | [] => true
  | c :: _ => !isWordC c

/-- Generic leftmost regex search: try the pattern matcher at every start
position (with the preceding character as boundary context), leftmost match
first, exactly as `re.search`. -/
def reSearch (tryAt : Option Char → List Char → Option Nat) :
    Option Char → List Char → Option Nat
  | prev, [] => tryAt prev []
  | prev, c :: t =>
    match tryAt prev (c :: t) with
    | some n => some n
    | none => reSearch tryAt (some c) t

/-- Matcher for `\bi\s*rolled\s*(\d+)\b` at one start position.  The greedy
`\s*` runs are forced maximal (the following token can never match a
whitespace character) and `(\d+)\b` admits no backtracking (two adjacent
digits never form a boundary), so the match is deterministic. -/
def tryRolled1 (prev : Option Char) (l : List Char) : Option Nat :=
  if wbBefore prev then
    match stripHead ['i'] l with
    | none => none
    | some r1 =>
      match stripHead "rolled".data (r1.dropWhile isSpacePy) with
      | none => none
      | some r2 =>
        let r3 := r2.dropWhile isSpacePy
        let ds := r3.takeWhile isDigitC
        if ds.isEmpty then none
        else if wbAfter (r3.dropWhile isDigitC) then some (digitsToNat ds) else none
  else none

/-- Matcher for `rolled[^\d]*(\d+)\b` at one start position.  `[^\d]*` is
forced maximal because `(\d+)` cannot start on a non-digit. -/
def tryRolled2 (_prev : Option Char) (l : List Char) : Option Nat :=
  match stripHead "rolled".data l with
  | none => none
  | some r1 =>
    let r2 := r1.dropWhile (fun c => !isDigitC c)
    let ds := r2.takeWhile isDigitC
    if ds.isEmpty then none
    else if wbAfter (r2.dropWhile isDigitC) then some (digitsToNat ds) else none

/-- Matcher for `\btotal\s*[:=]\s*(\d+)\b` at one start position. -/
def tryTotal (prev : Option Char) (l : List Char) : Option Nat :=
  if wbBefore prev then
    match stripHead "total".data l with
    | none => none
    | some r1 =>
      match r1.dropWhile isSpacePy with
      | [] => none
      | c :: r2 =>
        if c = ':' || c = '=' then
          let r3 := r2.dropWhile isSpacePy
          let ds := r3.takeWhile isDigitC
          if ds.isEmpty then none
          else if wbAfter (r3.dropWhile isDigitC) then some (digitsToNat ds) else none
        else none
  else none

/-- `extract_roll_total`: lower-case the player message, then try the three
extraction patterns in order; the first pattern with any match wins
(`main.py`, the numeric-extraction loop of `roll_followup_from_history`). -/
def extract_roll_total (msg : List Char) : Option Nat :=
  let m := lowerL msg
  match reSearch tryRolled1 none m with
  | some n => some n
  | none =>
    match reSearch tryRolled2 none m with
    | some n => some n
    | none => reSearch tryTotal none m

/-- Matcher for `\b(?:dc|difficulty\s*class)\s*(\d+)\b` at one start
position; the alternatives are tried left to right as in `re`. -/
def tryDC (prev : Option Char) (l : List Char) : Option Nat :=
  if wbBefore prev then
    let tail := fun (r : List Char) =>
      let r1 := r.dropWhile isSpacePy
      let ds := r1.takeWhile isDigitC
      if ds.isEmpty then none
      else if wbAfter (r1.dropWhile isDigitC) then some (digitsToNat ds) else none
    match (match stripHead "dc".data l with
           | some r => tail r
           | none => none) with
    | some n => some n
    | none =>
      match stripHead "difficulty".data l with
      | none => none
      | some r1 =>
        match stripHead "class".data (r1.dropWhile isSpacePy) with
        | none => none
        | some r2 => tail r2
  else none

/-- Matcher for `\b(?:ac)\s*(\d+)\b` at one start position. -/
def tryAC (prev : Option Char) (l : List Char) : Option Nat :=
  if wbBefore prev then
    match stripHead "ac".data l with
    | none => none
    | some r =>
      let r1 := r.dropWhile isSpacePy
      let ds := r1.takeWhile isDigitC
      if ds.isEmpty then none
      else if wbAfter (r1.dropWhile isDigitC) then some (digitsToNat ds) else none
  else none

/-- Leftmost search for the DC pattern in a (lower-cased) content string. -/
def searchDC (content : List Char) : Option Nat := reSearch tryDC none content

/-- Leftmost search for the AC pattern in a (lower-cased) content string. -/
def searchAC (content : List Char) : Option Nat := reSearch tryAC none content

/-- One conversation turn as received by the service (`history` entries). -/
structure Turn where
  role : String
  content : String
deriving DecidableEq, Repr

/-- The scan accumulator of `roll_followup_from_history`: the local variables
`last_kind`, `last_skill`, `last_dc`, `last_ac`. -/
structure ScanAcc where
  kind : Option String
  skill : Option String
  dc : Option Nat
  ac : Option Nat
deriving DecidableEq, Repr

/-- The 18-skill vocabulary, in the order listed in the source. -/
def skill_list : List String :=
  ["stealth", "perception", "investigation", "athletics", "acrobatics",
   "insight", "persuasion", "deception", "intimidation", "survival",
   "arcana", "history", "religion", "nature", "medicine", "performance",
   "sleight of hand", "animal handling"]

/-- The six saving-throw abilities, in source order. -/
def saves_list : List String :=
  ["strength", "dexterity", "constitution", "intelligence", "wisdom", "charisma"]

/-- Kind classification of a single assistant turn's (lower-cased) content:
initiative cues first, then skill-check phrasing over the skill vocabulary
(first match wins), then saving-throw phrasing, then attack phrasing; `none`
when the turn yields no kind.  Mirrors the body of the history loop. -/
def detectTurnKind (content : List Char) : Option (String × Option String) :=
  if hasSub "initiative".data content || hasSub "roll initiative".data content then
    some ("initiative", none)
  else
    match skill_list.findSome? (fun s =>
      if hasSub (s ++ " check").data content || hasSub ("roll " ++ s).data content ||
         hasSub ("roll for " ++ s).data content then some s else none) with
    | some s => some ("check", some s)
    | none =>
      match saves_list.findSome? (fun abil =>
        if hasSub (abil ++ " saving throw").data content then some abil else none) with
      | some abil => some ("save", some abil)
      | none =>
        if hasSub "attack roll".data content || hasSub "make an attack".data content ||
           hasSub "please roll attack".data content then
          some ("attack", none)
        else none

/-- One pass of the history loop over a single turn: non-assistant turns are
skipped; otherwise the DC and AC accumulators are overwritten by any match in
this turn, and the turn's kind classification (if any) is recorded. -/
def scanTurn (acc : ScanAcc) (t : Turn) : ScanAcc :=
  if t.role = "assistant" then
    let content := lowerL t.content.data
    let dc' := match searchDC content with
               | some v => some v
               | none => acc.dc
    let ac' := match searchAC content with
               | some v => some v
               | none => acc.ac
    match detectTurnKind content with
    | some (k, sk) =>
      { kind := some k,
        skill := match sk with
                 | some s => some s
                 | none => acc.skill,
        dc := dc', ac := ac' }
    | none => { acc with dc := dc', ac := ac' }
  else acc

/-- The history loop: turns are supplied most-recent-first; the loop breaks
as soon as a kind has been classified. -/
def scanLoop (acc : ScanAcc) : List Turn → ScanAcc
  | [] => acc
  | t :: ts =>
    let acc' := scanTurn acc t
    if acc'.kind.isSome then acc' else scanLoop acc' ts

/-- Initial accumulator: no kind, skill, DC or AC. -/
def initAcc : ScanAcc := ⟨none, none, none, none⟩

/-- The scan state after running the history loop over the last 8 turns in
most-recent-first order (`reversed(history[-8:])` is the first 8 elements of
the reversed history). -/
def scanState (history : List Turn) : ScanAcc :=
  scanLoop initAcc (history.reverse.take 8)

/-- The resolved pending-roll context (kind, skill, dc, ac). -/
structure PendingRollContext where
  kind : Option String
  skill : Option String
  dc : Option Nat
  ac : Option Nat
deriving DecidableEq, Repr

/-- `resolvePendingRoll`: run the bounded history scan, then inject the
default targets exactly as the three `if` statements in the source do
(Check without DC gets 12, Save without DC gets 13, Attack without AC
gets 13). -/
def resolvePendingRoll (history : List Turn) : PendingRollContext :=
  let st := scanState history
  let dc1 := if st.kind = some "check" ∧ st.dc = none then some 12 else st.dc
  let dc2 := if st.kind = some "save" ∧ dc1 = none then some 13 else dc1
  let ac1 := if st.kind = some "attack" ∧ st.ac = none then some 13 else st.ac
  ⟨st.kind, st.skill, dc2, ac1⟩

/-- Python's falsy-string fallback `s or default` (`None` and the empty
string both fall back). -/
def pyOrStr (s : Option String) (dflt : String) : String :=
  match s with
  | some x => if x = "" then dflt else x
  | none => dflt

/-- The nested helper `outcome_line`: one-line narrative summary of the
reported total against the resolved context. -/
def outcome_line (kind : Option String) (skill : Option String)
    (dc ac : Option Nat) (total : Nat) : String :=
  if kind = some "initiative" then
    "Initiative noted: " ++ toString total ++ "."
  else if kind = some "attack" then
    match ac with
    | none => "Your attack roll is " ++ toString total ++ "."
    | some a =>
      "Your attack roll is " ++ toString total ++ " " ++
        (if a ≤ total then "(hit)" else "(miss)") ++ "."
  else if kind = some "save" then
    match dc with
    | none => "Your saving throw total is " ++ toString total ++ "."
    | some d =>
      "Your " ++ pyOrStr skill "saving" ++ " throw is " ++ toString total ++ " " ++
        (if d ≤ total then "(success)" else "(failure)") ++ "."
  else if kind = some "check" then
    match dc with
    | none => "Your " ++ pyOrStr skill "ability" ++ " check totals " ++ toString total ++ "."
    | some d =>
      "Your " ++ pyOrStr skill "ability" ++ " check is " ++ toString total ++ " " ++
        (if d ≤ total then "(success)" else "(failure)") ++ "."
  else
    "Roll total recorded: " ++ toString total ++ "."

/-- The first conditional assignment of the `success_flag` computation:
`result >= last_dc` when the kind is check or save and a DC is present. -/
def success_flag_cs (kind : Option String) (dc : Option Nat) (total : Nat) :
    Option Bool :=
  match kind, dc with
  | some k, some d => if k = "check" ∨ k = "save" then some (decide (d ≤ total)) else none
  | _, _ => none

/-- The `success_flag` computation: two sequential conditional assignments
starting from `None` (the second overwrites for attack kinds with an AC). -/
def success_flag (kind : Option String) (dc ac : Option Nat) (total : Nat) :
    Option Bool :=
  match kind, ac with
  | some k, some a =>
    if k = "attack" then some (decide (a ≤ total)) else success_flag_cs kind dc total
  | _, _ => success_flag_cs kind dc total

/-- The roll outcome: reported total, optional success verdict, and the
narrative summary line. -/
structure RollOutcome where
  total : Nat
  success : Option Bool
  summary : String
deriving DecidableEq, Repr

/-- `evaluateOutcome` of the specification: bundles `outcome_line` and the
`success_flag` computation over a resolved context and a reported total. -/
def evaluateOutcome (ctx : PendingRollContext) (total : Nat) : RollOutcome :=
  ⟨total, success_flag ctx.kind ctx.dc ctx.ac total,
   outcome_line ctx.kind ctx.skill ctx.dc ctx.ac total⟩

/-- Model of Python `str.lower` on `String`. -/
def lowerStr (s : String) : String := String.mk (lowerL s.data)

/-- The option table of `build_lettered_options`: the local `options` list
selected by kind, coarse skill group and the `success is True` test, ported
branch for branch from the source. -/
def lettered_option_core (kind : Option String) (sk : String)
    (success : Option Bool) : List String :=
  if kind = some "check" then
    if sk = "deception" ∨ sk = "persuasion" ∨ sk = "intimidation" then
      if success = some true then
        ["A. **Slip away under the distraction**, moving quickly while their attention is elsewhere.",
         "B. **Reposition for advantage**, circling behind cover to set up your next move.",
         "C. **Press the bluff**, doubling down to steer them where you want."]
      else
        ["A. **Duck into cover**, using shadows and obstacles to break line of sight.",
         "B. **Change tactics**, shift to stealth or speed instead of misdirection.",
         "C. **Create a louder diversion**, throw debris or shout from another angle."]
    else if sk = "stealth" then
      if success = some true then
        ["A. **Shadow the pursuers**, tailing them to learn their route.",
         "B. **Slip past**, bypassing the danger to reach your objective.",
         "C. **Set an ambush**, choose a chokepoint and prepare."]
      else
        ["A. **Freeze and conceal**, minimize movement and sound.",
         "B. **Break line of sight**, dash to sturdier cover immediately.",
         "C. **Create a cover noise**, toss something to mask your movement."]
    else if sk = "athletics" ∨ sk = "acrobatics" then
      if success = some true then
        ["A. **Scale the terrain**, gaining a high vantage to escape or observe.",
         "B. **Dash through obstacles**, using momentum to widen the gap.",
         "C. **Shove or trip**, hinder a pursuer to buy time."]
      else
        ["A. **Retreat to safer footing**, then try a different approach.",
         "B. **Use the environment**, topple a crate or door to block pursuit.",
         "C. **Switch tactics**, avoid risky stunts and move cautiously."]
    else
      if success = some true then
        ["A. **Capitalize immediately**, act before the window closes.",
         "B. **Gather more information**, probe for extra clues.",
         "C. **Set up allies**, coordinate for a stronger follow‑through."]
      else
        ["A. **Try a different angle**, apply another skill or approach.",
         "B. **Leverage the environment**, find cover or tools nearby.",
         "C. **Withdraw briefly**, reassess and plan your next move."]
  else if kind = some "attack" then
    if success = some true then
      ["A. **Press the attack**, keep the pressure on your target.",
       "B. **Grapple or shove**, control their movement to gain advantage.",
       "C. **Withdraw to cover**, reposition before their counterattack."]
    else
      ["A. **Feint then strike**, change timing to throw them off.",
       "B. **Disengage and reposition**, set up a better line or range.",
       "C. **Switch tactics**, try a different target or approach."]
  else if kind = some "save" then
    if success = some true then
      ["A. **Push the advantage**, advance while the danger subsides.",
       "B. **Aid an ally**, help someone still in peril.",
       "C. **Secure a safer position**, reduce future risk."]
    else
      ["A. **Seek cover immediately**, minimize ongoing effects.",
       "B. **Use a resource**, potion or feature to mitigate harm.",
       "C. **Call for aid**, coordinate with allies."]
  else if kind = some "initiative" then
    ["A. **Act decisively**, take the first aggressive move.",
     "B. **Hold and observe**, wait for an opening.",
     "C. **Reposition**, move to advantageous terrain."]
  else
    ["A. **Approach cautiously**, gather more information before acting.",
     "B. **Create a distraction**, change the situation in your favor.",
     "C. **Withdraw and reassess**, plan a better approach."]

/-- The option table applied to `sk = (skill or '').lower()` as in the
source. -/
def lettered_option_list (kind : Option String) (skill : Option String)
    (success : Option Bool) : List String :=
  lettered_option_core kind (lowerStr (pyOrStr skill "")) success

/-- `build_lettered_options` returns a newline, then the options joined by
newlines. -/
def build_lettered_options (kind : Option String) (skill : Option String)
    (success : Option Bool) : String :=
  "\n" ++ String.intercalate "\n" (lettered_option_list kind skill success)

/-- Helper for `splitLinesPy`: accumulate the current line (reversed) while
walking the input.  The Boolean records that the previous character was a
`\r` whose line was already emitted, so a directly following `\n` is
swallowed (`\r\n` is a single boundary).  A trailing line is emitted only
when non-empty, matching Python `str.splitlines` (no trailing empty line,
`""` gives `[]`). -/
def splitLinesAux : Bool → List Char → List Char → List (List Char)
  | _, cur, [] => if cur.isEmpty then [] else [cur.reverse]
  | afterCR, cur, c :: r =>
    if afterCR && c == '\n' then splitLinesAux false cur r
    else if c = '\r' then cur.reverse :: splitLinesAux true [] r
    else if isLineBreak c then cur.reverse :: splitLinesAux false [] r
    else splitLinesAux false (c :: cur) r

/-- Model of Python `str.splitlines`. -/
def splitLinesPy (l : List Char) : List (List Char) := splitLinesAux false [] l

/-- Drop leading Python whitespace. -/
def trimStart (l : List Char) : List Char := l.dropWhile isSpacePy

/-- Drop trailing Python whitespace. -/
def trimEnd (l : List Char) : List Char := (l.reverse.dropWhile isSpacePy).reverse

/-- Model of Python `str.strip()`: drop whitespace from both ends. -/
def stripPy (l : List Char) : List Char := trimEnd (trimStart l)

/-- The anchored line pattern `^([A-C])\.\s*(.*)$` of `normalize_options`:
returns the letter and the rest after the greedy `\s*` (the `.*` group runs
to the end of the line; lines contain no newline).  `none` when the line does
not match. -/
def parseLine : List Char → Option (Char × List Char)
  | c :: c2 :: rest =>
    if (c = 'A' ∨ c = 'B' ∨ c = 'C') ∧ c2 = '.' then
      some (c, rest.dropWhile isSpacePy)
    else none
  | _ => none

/-- Split at the first comma (Python `body.split(",", 1)`); only used when a
comma is present. -/
def splitComma : List Char → List Char × List Char
  | [] => ([], [])
  | c :: r =>
    if c = ',' then ([], r)
    else (c :: (splitComma r).1, (splitComma r).2)

/-- Reformat one matched line of `normalize_options`: strip the body, bold
the part before the first comma (or the whole body when it has no comma). -/
def formatLine (c : Char) (body0 : List Char) : List Char :=
  let body := stripPy body0
  if body.any (fun x => x = ',') then
    let p := splitComma body
    [c, '.', ' ', '*', '*'] ++ stripPy p.1 ++ ['*', '*', ',', ' '] ++ stripPy p.2
  else
    [c, '.', ' ', '*', '*'] ++ body ++ ['*', '*']

/-- The lines of `normalize_options` that match the `^([A-C])\.` pattern,
already reformatted: `picked` in the source. -/
def pickedLines (raw : List Char) : List (List Char) :=
  (((splitLinesPy raw).map stripPy).filter (fun ln => !ln.isEmpty)).filterMap
    (fun ln => (parseLine ln).map (fun p => formatLine p.1 p.2))

/-- The generic filler appended while fewer than 3 options were picked; the
label is `["A","B","C"][len(picked)]` (the loop guard keeps the index below
3, so positions beyond 2 are unreachable). -/
def fillerFor (n : Nat) : List Char :=
  (["A", "B", "C"].getD n "A").data ++
  ". **Explore another angle**, adapt your approach to the situation.".data

/-- One iteration of the `while len(picked) < 3` padding loop: append the
filler labelled by the current length when still short. -/
def padStep (l : List (List Char)) : List (List Char) :=
  if l.length < 3 then l ++ [fillerFor l.length] else l

/-- The `while len(picked) < 3` padding loop, unrolled (it appends one filler
per iteration and therefore runs at most three times). -/
def padTo3 (l : List (List Char)) : List (List Char) :=
  padStep (padStep (padStep l))

/-- `normalize_options`: pick and reformat the matching lines, pad to 3 with
the generic filler, truncate to 3. -/
def normalize_options (raw : List Char) : List (List Char) :=
  (padTo3 (pickedLines raw)).take 3

/-- Newline join (`"\n".join`), used to feed a produced option menu back
into `normalize_options`. -/
def joinNL : List (List Char) → List Char
  | [] => []
  | e :: es =>
    match es with
    | [] => e
    | _ :: _ => e ++ '\n' :: joinNL es

/-- A roll request as built by the heuristic classifier (the fields the
classifier populates; `advantage`/`disadvantage` are never set there). -/
structure RollRequest where
  type : String
  formula : Option String
  purpose : Option String
  dc : Option Nat
  ac : Option Nat
deriving DecidableEq, Repr

/-- Model of Python `str.title` at ASCII level: an ASCII letter is
upper-cased after a non-letter and lower-cased after a letter. -/
def titleAux : Bool → List Char → List Char
  | _, [] => []
  | prevAlpha, c :: r =>
    if isAlphaC c then
      (if prevAlpha then toLowerC c else toUpperC c) :: titleAux true r
    else c :: titleAux false r

/-- Model of Python `str.title` on `String`. -/
def titleStr (s : String) : String := String.mk (titleAux false s.data)

/-- The synonym table of the heuristic classifier, in source order. -/
def synonyms : List (String × List String) :=
  [("stealth", ["sneak", "sneaking", "sneakily", "quiet", "quietly", "hide", "hidden", "shadows", "creep", "silently", "tiptoe"]),
   ("deception", ["diversion", "distract", "distracting", "bluff", "mislead", "decoy"]),
   ("athletics", ["throw", "toss", "hurl", "shove", "lift", "climb", "jump", "grapple"]),
   ("acrobatics", ["tumble", "flip", "balance", "dodge", "roll away"]),
   ("persuasion", ["persuade", "convince", "appeal", "negotiate", "bargain", "charm"]),
   ("intimidation", ["intimidate", "threaten", "menace", "coerce", "scare"]),
   ("investigation", ["search", "examine", "inspect", "analyze", "study", "look over"]),
   ("perception", ["look", "listen", "scan", "spot", "notice", "observe", "hear"]),
   ("sleight of hand", ["pickpocket", "palm", "conceal", "snatch", "nimble fingers"]),
   ("survival", ["track", "forage", "navigate", "trail"])]

/-- The request list built by `heuristic_response` before its final `save`
clause: initiative and attack keyword requests, then the literal-skill or
synonym-detected check, then the generic check fallback, in source order. -/
def classify_pre (msg : String) : List RollRequest :=
  let m := lowerL msg.data
  let parsed_dc := searchDC m
  let r1 : List RollRequest :=
    if hasSub "initiative".data m then
      [⟨"initiative", some "1d20+2", some "Roll initiative", none, none⟩] else []
  let r2 := r1 ++
    (if hasSub "attack".data m then
      [⟨"attack", some "1d20+5", some "Attack roll", none, some 13⟩] else [])
  let detected_skill := synonyms.findSome? (fun p =>
    if p.2.any (fun w => hasSub w.data m) then some p.1 else none)
  let litSkill := skill_list.find? (fun s =>
    hasSub s.data m || hasSub ("roll for " ++ s).data m)
  let r3 := r2 ++
    (match litSkill with
     | some s => [⟨"check", some "1d20+3", some (titleStr s ++ " check"), parsed_dc, none⟩]
     | none => [])
  let r4 := r3 ++
    (match detected_skill with
     | some s =>
       if r3.any (fun r => r.type = "check") then []
       else [⟨"check", some "1d20+3", some (titleStr s ++ " check"), parsed_dc, none⟩]
     | none => [])
  r4 ++
    (if hasSub "check".data m && !(r4.any (fun r => r.type = "check")) then
      [⟨"check", some "1d20+3", some "Ability check", parsed_dc, none⟩] else [])

/-- `heuristic_requests`: the full request list of `heuristic_response`,
i.e. `classify_pre` followed by the unconditional saving-throw clause
(`if "save" in m`). -/
def heuristic_requests (msg : String) : List RollRequest :=
  let m := lowerL msg.data
  classify_pre msg ++
    (if hasSub "save".data m then
      [⟨"save", some "1d20+2", some "Saving throw", searchDC m, none⟩] else [])

/-- One narration segment of a DM response. -/
structure NarrationSegment where
  type : String
  text : String
deriving DecidableEq, Repr

/-- The DM response object (the fields the follow-up path populates). -/
structure DMResponse where
  text : String
  narration_segments : List NarrationSegment
  roll_requests : List RollRequest
deriving DecidableEq, Repr

/-- `roll_followup_from_history`: `none` when the player message reports no
roll total; otherwise resolve the pending roll from history, evaluate the
outcome, append the lettered options, and return a response whose
`roll_requests` list is the empty list literal of the source. -/
def roll_followup_from_history (msg : String) (history : List Turn) :
    Option DMResponse :=
  match extract_roll_total msg.data with
  | none => none
  | some result =>
    let ctx := resolvePendingRoll history
    let summary := outcome_line ctx.kind ctx.skill ctx.dc ctx.ac result
    let success := success_flag ctx.kind ctx.dc ctx.ac result
    let text := summary ++ " " ++ "What do you do next?" ++
      build_lettered_options ctx.kind ctx.skill success
    some ⟨text, [⟨"dm", text⟩], []⟩

/-! ### Derived notions used to state the verified properties -/

/-- A well-formed three-option menu: exactly three entries beginning with
"A. ", "B. ", "C. " in that order. -/
def menuOK (l : List String) : Bool :=
  match l with
  | [a, b, c] =>
    (stripHead "A. ".data a.data).isSome && (stripHead "B. ".data b.data).isSome &&
    (stripHead "C. ".data c.data).isSome
  | _ => false

/-- The last eight turns of a history (`history[-8:]`). -/
def lastEight (history : List Turn) : List Turn :=
  (history.reverse.take 8).reverse

/-- Does a turn, on its own, yield a kind classification during the scan?
Non-assistant turns never do. -/
def yieldsKind (t : Turn) : Bool :=
  if t.role = "assistant" then (detectTurnKind (lowerL t.content.data)).isSome
  else false

/-- The DC extracted from a turn during the scan (`none` for non-assistant
turns, which are skipped). -/
def dcOfTurn (t : Turn) : Option Nat :=
  if t.role = "assistant" then searchDC (lowerL t.content.data) else none

/-- The AC extracted from a turn during the scan. -/
def acOfTurn (t : Turn) : Option Nat :=
  if t.role = "assistant" then searchAC (lowerL t.content.data) else none

/-- Overwrite-update of a target accumulator by one turn's extraction
result: a match replaces the accumulator, no match keeps it. -/
def orUpd (new old : Option Nat) : Option Nat :=
  match new with
  | some v => some v
  | none => old

/-- The prefix of a most-recent-first turn list that the scan actually
processes: everything up to and including the first kind-yielding turn. -/
def scannedTo : List Turn → List Turn
  | [] => []
  | t :: ts => if yieldsKind t then [t] else t :: scannedTo ts

/-- The scanned turns of a history, in most-recent-first scan order. -/
def scannedTurns (history : List Turn) : List Turn :=
  scannedTo (history.reverse.take 8)

/-- Modelled from the claim's reading of the spec: the DC mention from the
scanned turn closest to the end of the history, i.e. the first match in
most-recent-first scan order.  (Used to compare the claimed tie-break
against the implemented one.) -/
def mostRecentScannedDC (history : List Turn) : Option Nat :=
  (scannedTurns history).findSome? dcOfTurn

/-- `"<letter>. **"`, the fixed prefix of every normalized option. -/
def fmtHead (c : Char) : List Char := [c, '.', ' ', '*', '*']

/-- A normalized option in comma form: `"<letter>. **<head>**, <tail>"`. -/
def fmtComma (c : Char) (h t : List Char) : List Char :=
  fmtHead c ++ h ++ ['*', '*', ',', ' '] ++ t

/-- A normalized option in plain form: `"<letter>. **<body>**"`. -/
def fmtPlain (c : Char) (b : List Char) : List Char :=
  fmtHead c ++ b ++ ['*', '*']

/-- A string segment as it appears inside a normalized option: already
stripped and free of line-boundary characters. -/
def cleanSeg (s : List Char) : Prop :=
  stripPy s = s ∧ ∀ c ∈ s, isLineBreak c = false

/-- Comma-free segment. -/
def noComma (s : List Char) : Prop := ∀ c ∈ s, c ≠ ','

instance (s : List Char) : Decidable (cleanSeg s) := by
  unfold cleanSeg
  infer_instance

instance (s : List Char) : Decidable (noComma s) := by
  unfold noComma
  infer_instance

/-- The canonical shape of every entry produced by `normalize_options`:
letter A, B or C, then a bolded comma-free head, optionally followed by
a comma and a tail. -/
def GoodEntry (e : List Char) : Prop :=
  ∃ c, (c = 'A' ∨ c = 'B' ∨ c = 'C') ∧
    ((∃ h t, cleanSeg h ∧ noComma h ∧ cleanSeg t ∧ e = fmtComma c h t) ∨
     (∃ b, cleanSeg b ∧ noComma b ∧ e = fmtPlain c b))

/-- What `normalize_options` does to one of its own output entries when fed
back: re-parse the (stripped) line and re-format it, which wraps the head in
one more pair of asterisks. -/
def reboldEntry (e : List Char) : List Char :=
  match parseLine (stripPy e) with
  | some p => formatLine p.1 p.2
  | none => e

/-! ### Helper lemmas -/

/-- A DC captured by the scan survives default injection unchanged. -/
theorem resolve_dc_of_some (history : List Turn) (v : Nat)
    (h : (scanState history).dc = some v) :
    (resolvePendingRoll history).dc = some v := by
  simp only [resolvePendingRoll, h]
  split <;> simp_all

/-- An AC captured by the scan survives default injection unchanged. -/
theorem resolve_ac_of_some (history : List Turn) (v : Nat)
    (h : (scanState history).ac = some v) :
    (resolvePendingRoll history).ac = some v := by
  simp only [resolvePendingRoll, h]
  split <;> simp_all

/-- One scan step updates the DC accumulator by overwrite. -/
theorem scanTurn_dc (acc : ScanAcc) (t : Turn) :
    (scanTurn acc t).dc = orUpd (dcOfTurn t) acc.dc := by
  simp only [scanTurn, dcOfTurn, orUpd]
  split
  · cases hdc : searchDC (lowerL t.content.data) <;>
      rcases hdet : detectTurnKind (lowerL t.content.data) with _ | ⟨k, sk⟩ <;>
        simp [hdc, hdet]
  · simp

/-- One scan step updates the AC accumulator by overwrite. -/
theorem scanTurn_ac (acc : ScanAcc) (t : Turn) :
    (scanTurn acc t).ac = orUpd (acOfTurn t) acc.ac := by
  simp only [scanTurn, acOfTurn, orUpd]
  split
  · cases hac : searchAC (lowerL t.content.data) <;>
      rcases hdet : detectTurnKind (lowerL t.content.data) with _ | ⟨k, sk⟩ <;>
        simp [hac, hdet]
  · simp

/-- Starting from a kind-free accumulator, one scan step produces a kind
exactly when the turn yields one. -/
theorem scanTurn_kind (acc : ScanAcc) (t : Turn) (h : acc.kind = none) :
    (scanTurn acc t).kind.isSome = yieldsKind t := by
  simp only [scanTurn, yieldsKind]
  split
  · rcases hdet : detectTurnKind (lowerL t.content.data) with _ | ⟨k, sk⟩ <;>
      simp [hdet, h]
  · simp [h]

/-- The scan loop's final target accumulator is the fold of the per-turn
overwrite update over the scanned prefix, for any projection behaving like
the DC/AC field. -/
theorem scanLoop_proj (proj : ScanAcc → Option Nat) (ex : Turn → Option Nat)
    (hstep : ∀ acc t, proj (scanTurn acc t) = orUpd (ex t) (proj acc)) :
    ∀ (l : List Turn) (acc : ScanAcc), acc.kind = none →
      proj (scanLoop acc l) = (scannedTo l).foldl (fun d t => orUpd (ex t) d) (proj acc) := by
  intro l
  induction l with
  | nil => intro acc _; rfl
  | cons t ts ih =>
    intro acc hacc
    simp only [scanLoop, scannedTo]
    rw [scanTurn_kind acc t hacc]
    cases hy : yieldsKind t with
    | true => simp [hy, hstep]
    | false =>
      simp only [hy, Bool.false_eq_true, if_neg, ite_false, List.foldl_cons]
      have hkind : (scanTurn acc t).kind = none := by
        have := scanTurn_kind acc t hacc
        rw [hy] at this
        exact Option.not_isSome_iff_eq_none.mp (by simp [this])
      rw [ih (scanTurn acc t) hkind, hstep]

/-- Folding the overwrite update equals taking the first extraction hit in
reversed (i.e. chronological) order, falling back to the seed. -/
theorem foldl_orUpd_findSome (ex : Turn → Option Nat) :
    ∀ (l : List Turn) (d0 : Option Nat),
      l.foldl (fun d t => orUpd (ex t) d) d0 = orUpd (l.reverse.findSome? ex) d0 := by
  intro l
  induction l using List.reverseRecOn with
  | nil => intro d0; rfl
  | append_singleton l t ih =>
    intro d0
    rw [List.foldl_append, List.reverse_append]
    simp only [List.reverse_cons, List.reverse_nil, List.nil_append, List.singleton_append,
      List.findSome?_cons, List.foldl_cons, List.foldl_nil]
    cases hx : ex t with
    | some v => simp [orUpd, hx]
    | none => simpa [orUpd] using ih d0

/-- The scan loop never looks past a kind-yielding turn: anything older is
irrelevant. -/
theorem scanLoop_stops (t : Turn) (ht : yieldsKind t = true) :
    ∀ (m : List Turn) (acc : ScanAcc), acc.kind = none →
      (∀ u ∈ m, yieldsKind u = false) →
      ∀ (r r' : List Turn),
        scanLoop acc (m ++ t :: r) = scanLoop acc (m ++ t :: r') := by
  intro m
  induction m with
  | nil =>
    intro acc hacc _ r r'
    simp only [List.nil_append, scanLoop]
    rw [scanTurn_kind acc t hacc, ht]
    simp
  | cons u m' ih =>
    intro acc hacc hm r r'
    simp only [List.cons_append, scanLoop]
    rw [scanTurn_kind acc u hacc, hm u (by simp)]
    have hkind : (scanTurn acc u).kind = none := by
      have := scanTurn_kind acc u hacc
      rw [hm u (by simp)] at this
      exact Option.not_isSome_iff_eq_none.mp (by simp [this])
    simp only [Bool.false_eq_true, if_neg, ite_false]
    exact ih (scanTurn acc u) hkind (fun v hv => hm v (by simp [hv])) r r'

/-! ### Trimming lemmas for the option normalizer -/

/-- A list fixed by `dropWhile` has a head that fails the predicate. -/
theorem dropWhile_fix_head {p : Char → Bool} {l : List Char}
    (h : l.dropWhile p = l) : ∀ c, l.head? = some c → p c = false := by
  intro c hc
  cases hsp : p c with
  | false => rfl
  | true =>
    exfalso
    cases l with
    | nil => simp at hc
    | cons c' t =>
      have hcc : c' = c := by simpa using hc
      subst hcc
      rw [List.dropWhile_cons_of_pos (by simp [hsp])] at h
      have hle := (List.dropWhile_sublist (l := t) p).length_le
      rw [h] at hle
      simp at hle

/-- `dropWhile` is idempotent. -/
theorem dropWhile_idem {p : Char → Bool} (l : List Char) :
    (l.dropWhile p).dropWhile p = l.dropWhile p := by
  cases hd : l.dropWhile p with
  | nil => rfl
  | cons c t =>
    have hc : p c = false := by
      have hh := List.head?_dropWhile_not p l
      rw [hd] at hh
      simpa using hh
    rw [List.dropWhile_cons_of_neg (by simp [hc])]

/-- A list whose head is not whitespace is fixed by `trimStart`. -/
theorem trimStart_eq_self {l : List Char}
    (h : ∀ c, l.head? = some c → isSpacePy c = false) : trimStart l = l := by
  cases l with
  | nil => rfl
  | cons c t => exact List.dropWhile_cons_of_neg (by simp [h c rfl])

/-- A list whose last character is not whitespace is fixed by `trimEnd`. -/
theorem trimEnd_eq_self {l : List Char}
    (h : ∀ c, l.reverse.head? = some c → isSpacePy c = false) : trimEnd l = l := by
  have h1 : l.reverse.dropWhile isSpacePy = l.reverse := trimStart_eq_self h
  unfold trimEnd
  rw [h1, List.reverse_reverse]

/-- `trimEnd` produces a prefix of its input. -/
theorem trimEnd_prefix (l : List Char) : List.IsPrefix (trimEnd l) l := by
  have h := List.reverse_prefix.mpr (List.dropWhile_suffix (l := l.reverse) isSpacePy)
  rwa [List.reverse_reverse] at h

/-- `trimEnd` never lengthens. -/
theorem trimEnd_length_le (l : List Char) : (trimEnd l).length ≤ l.length := by
  unfold trimEnd
  rw [List.length_reverse]
  have := (List.dropWhile_sublist (l := l.reverse) isSpacePy).length_le
  simpa using this

/-- A strip fixed point is a `trimStart` fixed point. -/
theorem trimStart_fix {l : List Char} (h : stripPy l = l) : trimStart l = l := by
  have h1 : (stripPy l).length ≤ (trimStart l).length := trimEnd_length_le _
  have h2 : (trimStart l).length ≤ l.length :=
    (List.dropWhile_sublist (l := l) isSpacePy).length_le
  rw [h] at h1
  unfold trimStart at h1 h2 ⊢
  exact (List.dropWhile_sublist (l := l) isSpacePy).eq_of_length (by omega)

/-- A strip fixed point is a `trimEnd` fixed point. -/
theorem trimEnd_fix {l : List Char} (h : stripPy l = l) : trimEnd l = l := by
  have h1 := trimStart_fix h
  calc trimEnd l = trimEnd (trimStart l) := by rw [h1]
    _ = l := h

/-- The head of a strip fixed point is not whitespace. -/
theorem strip_fix_head {l : List Char} (h : stripPy l = l) :
    ∀ c, l.head? = some c → isSpacePy c = false :=
  dropWhile_fix_head (trimStart_fix h)

/-- The last character of a strip fixed point is not whitespace. -/
theorem strip_fix_last {l : List Char} (h : stripPy l = l) :
    ∀ c, l.reverse.head? = some c → isSpacePy c = false := by
  have h2 := trimEnd_fix h
  have h3 : l.reverse.dropWhile isSpacePy = l.reverse := by
    have := congrArg List.reverse h2
    unfold trimEnd at this
    rwa [List.reverse_reverse] at this
  exact dropWhile_fix_head h3

/-- Stripping a list with non-whitespace first and last characters is the
identity. -/
theorem stripPy_eq_self {l : List Char}
    (hh : ∀ c, l.head? = some c → isSpacePy c = false)
    (hl : ∀ c, l.reverse.head? = some c → isSpacePy c = false) :
    stripPy l = l := by
  unfold stripPy
  rw [trimStart_eq_self hh, trimEnd_eq_self hl]

/-- `stripPy` is idempotent. -/
theorem stripPy_idem (l : List Char) : stripPy (stripPy l) = stripPy l := by
  unfold stripPy
  have h1 : trimStart (trimEnd (trimStart l)) = trimEnd (trimStart l) := by
    apply trimStart_eq_self
    intro c hc
    obtain ⟨r, hr⟩ := trimEnd_prefix (trimStart l)
    have hhead : (trimStart l).head? = some c := by
      rw [← hr, List.head?_append, hc]
      rfl
    exact dropWhile_fix_head (dropWhile_idem l) c hhead
  rw [h1]
  unfold trimEnd
  rw [List.reverse_reverse, dropWhile_idem]

/-- Characters of the stripped list come from the original. -/
theorem mem_stripPy {c : Char} {l : List Char} (h : c ∈ stripPy l) : c ∈ l := by
  unfold stripPy trimEnd at h
  rw [List.mem_reverse] at h
  have h2 := (List.dropWhile_sublist (l := (trimStart l).reverse) isSpacePy).mem h
  rw [List.mem_reverse] at h2
  exact (List.dropWhile_sublist (l := l) isSpacePy).mem h2

/-! ### Line splitting, comma splitting and entry-shape lemmas -/

/-- Walking a boundary-free chunk only accumulates it. -/
theorem splitLinesAux_append {e : List Char} (he : ∀ x ∈ e, isLineBreak x = false) :
    ∀ (cur r : List Char),
      splitLinesAux false cur (e ++ r) = splitLinesAux false (e.reverse ++ cur) r := by
  induction e with
  | nil => intro cur r; simp
  | cons c e' ih =>
    intro cur r
    have hc := he c (by simp)
    have hcr : ¬ c = '\r' := by
      intro hh
      subst hh
      exact absurd hc (by decide)
    simp only [List.cons_append, splitLinesAux]
    rw [if_neg (by simp), if_neg hcr, if_neg (by simp [hc])]
    rw [show ((c :: e').reverse ++ cur : List Char) = e'.reverse ++ (c :: cur) from by simp]
    exact ih (fun x hx => he x (by simp [hx])) (c :: cur) r

/-- A newline emits the accumulated line. -/
theorem splitLinesAux_newline (cur r : List Char) :
    splitLinesAux false cur ('\n' :: r) = cur.reverse :: splitLinesAux false [] r := by
  simp only [splitLinesAux]
  rw [if_neg (by simp), if_neg (by decide), if_pos (by decide)]

/-- The end of input emits a pending nonempty line. -/
theorem splitLinesAux_last {cur : List Char} (h : cur ≠ []) :
    splitLinesAux false cur [] = [cur.reverse] := by
  simp [splitLinesAux, List.isEmpty_eq_false.mpr h]

/-- Splitting the newline-join of three boundary-free nonempty lines
recovers them. -/
theorem splitLinesPy_join3 {a b c : List Char}
    (ha : ∀ x ∈ a, isLineBreak x = false) (hb : ∀ x ∈ b, isLineBreak x = false)
    (hc : ∀ x ∈ c, isLineBreak x = false) (hnc : c ≠ []) :
    splitLinesPy (joinNL [a, b, c]) = [a, b, c] := by
  have hj : joinNL [a, b, c] = a ++ '\n' :: (b ++ '\n' :: c) := rfl
  unfold splitLinesPy
  rw [hj, splitLinesAux_append ha, List.append_nil, splitLinesAux_newline,
    List.reverse_reverse, splitLinesAux_append hb, List.append_nil,
    splitLinesAux_newline, List.reverse_reverse]
  nth_rewrite 1 [show (c : List Char) = c ++ [] from (List.append_nil c).symm]
  rw [splitLinesAux_append hc, List.append_nil,
    splitLinesAux_last (by simpa using hnc), List.reverse_reverse]

/-- Characters of the first comma-split component come from the input. -/
theorem splitComma_fst_mem : ∀ {l : List Char} {x}, x ∈ (splitComma l).1 → x ∈ l := by
  intro l
  induction l with
  | nil => intro x hx; simp [splitComma] at hx
  | cons c r ih =>
    intro x hx
    by_cases hc : c = ','
    · subst hc; simp [splitComma] at hx
    · simp [splitComma, hc] at hx
      rcases hx with rfl | hx
      · simp
      · exact List.mem_cons_of_mem _ (ih hx)

/-- Characters of the second comma-split component come from the input. -/
theorem splitComma_snd_mem : ∀ {l : List Char} {x}, x ∈ (splitComma l).2 → x ∈ l := by
  intro l
  induction l with
  | nil => intro x hx; simp [splitComma] at hx
  | cons c r ih =>
    intro x hx
    by_cases hc : c = ','
    · subst hc
      simp [splitComma] at hx
      exact List.mem_cons_of_mem _ hx
    · simp [splitComma, hc] at hx
      exact List.mem_cons_of_mem _ (ih hx)

/-- The first comma-split component is comma-free. -/
theorem splitComma_fst_noComma : ∀ {l : List Char} {x}, x ∈ (splitComma l).1 → x ≠ ',' := by
  intro l
  induction l with
  | nil => intro x hx; simp [splitComma] at hx
  | cons c r ih =>
    intro x hx
    by_cases hc : c = ','
    · subst hc; simp [splitComma] at hx
    · simp [splitComma, hc] at hx
      rcases hx with rfl | hx
      · exact hc
      · exact ih hx

/-- Splitting a comma-free prefix followed by a comma recovers the parts. -/
theorem splitComma_append : ∀ {pre : List Char}, (∀ x ∈ pre, x ≠ ',') →
    ∀ (post : List Char), splitComma (pre ++ ',' :: post) = (pre, post) := by
  intro pre
  induction pre with
  | nil => intro _ post; simp [splitComma]
  | cons c p' ih =>
    intro h post
    have hc : ¬ c = ',' := h c (by simp)
    rw [List.cons_append]
    simp only [splitComma]
    rw [if_neg hc, ih (fun x hx => h x (by simp [hx])) post]

/-- No produced line contains a line-boundary character. -/
theorem splitLines_no_break : ∀ (l : List Char) (flag : Bool) (cur : List Char),
    (∀ x ∈ cur, isLineBreak x = false) →
    ∀ ln ∈ splitLinesAux flag cur l, ∀ x ∈ ln, isLineBreak x = false := by
  intro l
  induction l with
  | nil =>
    intro flag cur hcur ln hln x hx
    simp only [splitLinesAux] at hln
    split at hln
    · simp at hln
    · simp at hln
      subst hln
      exact hcur x (by simpa using hx)
  | cons c r ih =>
    intro flag cur hcur ln hln x hx
    simp only [splitLinesAux] at hln
    split at hln
    · exact ih false cur hcur ln hln x hx
    · split at hln
      · rcases List.mem_cons.mp hln with rfl | hln
        · exact hcur x (by simpa using hx)
        · exact ih true [] (by simp) ln hln x hx
      · split at hln
        · rcases List.mem_cons.mp hln with rfl | hln
          · exact hcur x (by simpa using hx)
          · exact ih false [] (by simp) ln hln x hx
        · rename_i hbrk
          refine ih false (c :: cur) ?_ ln hln x hx
          intro y hy
          rcases List.mem_cons.mp hy with rfl | hy
          · simpa using hbrk
          · exact hcur y hy

/-- Unpacking a successful line parse. -/
theorem parseLine_some {l : List Char} {c : Char} {b : List Char}
    (h : parseLine l = some (c, b)) :
    (c = 'A' ∨ c = 'B' ∨ c = 'C') ∧
      ∃ rest, l = c :: '.' :: rest ∧ b = rest.dropWhile isSpacePy := by
  match l with
  | [] => simp [parseLine] at h
  | [c1] => simp [parseLine] at h
  | c1 :: c2 :: rest =>
    simp only [parseLine] at h
    split at h
    · rename_i hcond
      rw [Option.some.injEq, Prod.mk.injEq] at h
      obtain ⟨rfl, rfl⟩ := h
      exact ⟨hcond.1, rest, by rw [hcond.2], rfl⟩
    · simp at h

/-- The reformatted line is a canonical entry whenever the original letter
is A, B or C and the body contains no boundary characters. -/
theorem formatLine_good {c : Char} (habc : c = 'A' ∨ c = 'B' ∨ c = 'C')
    {b : List Char} (hb : ∀ x ∈ b, isLineBreak x = false) :
    GoodEntry (formatLine c b) := by
  simp only [formatLine]
  split
  · refine ⟨c, habc, Or.inl ⟨stripPy (splitComma (stripPy b)).1,
      stripPy (splitComma (stripPy b)).2, ⟨stripPy_idem _, ?_⟩, ?_, ⟨stripPy_idem _, ?_⟩, ?_⟩⟩
    · exact fun x hx => hb x (mem_stripPy (splitComma_fst_mem (mem_stripPy hx)))
    · exact fun x hx => splitComma_fst_noComma (mem_stripPy hx)
    · exact fun x hx => hb x (mem_stripPy (splitComma_snd_mem (mem_stripPy hx)))
    · simp [fmtComma, fmtHead]
  · rename_i hcomma
    refine ⟨c, habc, Or.inr ⟨stripPy b,
      ⟨stripPy_idem _, fun x hx => hb x (mem_stripPy hx)⟩, ?_, ?_⟩⟩
    · intro x hx hxc
      apply hcomma
      rw [List.any_eq_true]
      exact ⟨x, hx, by simp [hxc]⟩
    · simp [fmtPlain, fmtHead]

/-- Every picked line of `normalize_options` is a canonical entry. -/
theorem pickedLines_good (raw : List Char) : ∀ e ∈ pickedLines raw, GoodEntry e := by
  intro e he
  unfold pickedLines at he
  rw [List.mem_filterMap] at he
  obtain ⟨ln, hln, hfe⟩ := he
  rw [List.mem_filter] at hln
  obtain ⟨hmem, _hne⟩ := hln
  rw [List.mem_map] at hmem
  obtain ⟨ln0, hln0, rfl⟩ := hmem
  cases hp : parseLine (stripPy ln0) with
  | none => rw [hp] at hfe; simp at hfe
  | some q =>
    rw [hp] at hfe
    simp only [Option.map_some'] at hfe
    rw [Option.some.injEq] at hfe
    obtain ⟨habc, rest, hsplit, hbody⟩ := parseLine_some hp
    rw [← hfe]
    apply formatLine_good habc
    intro x hx
    rw [hbody] at hx
    have hx1 : x ∈ rest := (List.dropWhile_sublist (l := rest) isSpacePy).mem hx
    have hx2 : x ∈ stripPy ln0 := by
      rw [hsplit]
      exact List.mem_cons_of_mem _ (List.mem_cons_of_mem _ hx1)
    exact splitLines_no_break raw false [] (by simp) ln0 hln0 x (mem_stripPy hx2)

/-- The generic filler is a canonical entry, whatever its position. -/
theorem fillerFor_good (n : Nat) : GoodEntry (fillerFor n) := by
  have hshape : ∀ s : String, s = "A" ∨ s = "B" ∨ s = "C" →
      GoodEntry (s.data ++
        ". **Explore another angle**, adapt your approach to the situation.".data) := by
    intro s hs
    have hmk : ∀ c : Char, (c = 'A' ∨ c = 'B' ∨ c = 'C') →
        GoodEntry ([c] ++
          ". **Explore another angle**, adapt your approach to the situation.".data) := by
      intro c hc
      exact ⟨c, hc, Or.inl ⟨"Explore another angle".data,
        "adapt your approach to the situation.".data,
        ⟨by decide, by decide⟩, by decide, ⟨by decide, by decide⟩, by
          rcases hc with rfl | rfl | rfl <;> decide⟩⟩
    rcases hs with rfl | rfl | rfl
    · exact hmk 'A' (Or.inl rfl)
    · exact hmk 'B' (Or.inr (Or.inl rfl))
    · exact hmk 'C' (Or.inr (Or.inr rfl))
  unfold fillerFor
  apply hshape
  rcases n with _ | _ | _ | k
  · exact Or.inl rfl
  · exact Or.inr (Or.inl rfl)
  · exact Or.inr (Or.inr rfl)
  · exact Or.inl (by simp [List.getD])

/-- Padding a short list yields fillers at the tail positions. -/
theorem padTo3_nil : padTo3 [] = [fillerFor 0, fillerFor 1, fillerFor 2] := rfl

/-- Padding a one-entry list keeps the entry and fills positions 1 and 2. -/
theorem padTo3_one (a : List Char) : padTo3 [a] = [a, fillerFor 1, fillerFor 2] := rfl

/-- Padding a two-entry list keeps the entries and fills position 2. -/
theorem padTo3_two (a b : List Char) : padTo3 [a, b] = [a, b, fillerFor 2] := rfl

/-- One padding step does nothing to a list of three or more entries. -/
theorem padStep_of_le {l : List (List Char)} (h : 3 ≤ l.length) : padStep l = l := by
  unfold padStep
  rw [if_neg (by omega)]

/-- Padding does nothing to a list that already has three entries. -/
theorem padTo3_of_le {l : List (List Char)} (h : 3 ≤ l.length) : padTo3 l = l := by
  unfold padTo3
  rw [padStep_of_le h, padStep_of_le h, padStep_of_le h]

/-- `normalize_options` always returns exactly three entries. -/
theorem normalize_length (raw : List Char) : (normalize_options raw).length = 3 := by
  unfold normalize_options
  rcases hl : pickedLines raw with _ | ⟨a, _ | ⟨b, _ | ⟨c, rest⟩⟩⟩
  · rw [padTo3_nil]; rfl
  · rw [padTo3_one]; rfl
  · rw [padTo3_two]; rfl
  · rw [padTo3_of_le (by simp)]
    simp [List.length_take]

/-- A member of one padding step is an original entry or a filler. -/
theorem mem_padStep {l : List (List Char)} {e : List Char} (h : e ∈ padStep l) :
    e ∈ l ∨ ∃ n, e = fillerFor n := by
  unfold padStep at h
  split at h
  · rw [List.mem_append] at h
    rcases h with h | h
    · exact Or.inl h
    · exact Or.inr ⟨_, by simpa using h⟩
  · exact Or.inl h

/-- Every member of the padded pick list is a picked entry or a filler. -/
theorem mem_padTo3 {l : List (List Char)} {e : List Char} (h : e ∈ padTo3 l) :
    e ∈ l ∨ ∃ n, e = fillerFor n := by
  unfold padTo3 at h
  rcases mem_padStep h with h1 | hf
  · rcases mem_padStep h1 with h2 | hf
    · rcases mem_padStep h2 with h3 | hf
      · exact Or.inl h3
      · exact Or.inr hf
    · exact Or.inr hf
  · exact Or.inr hf

/-- Every entry of `normalize_options` is canonical. -/
theorem normalize_mem_good (raw : List Char) :
    ∀ e ∈ normalize_options raw, GoodEntry e := by
  intro e he
  unfold normalize_options at he
  have h1 : e ∈ padTo3 (pickedLines raw) := (List.take_sublist _ _).mem he
  rcases mem_padTo3 h1 with h2 | ⟨n, rfl⟩
  · exact pickedLines_good raw e h2
  · exact fillerFor_good n

/-- Canonical entries are nonempty. -/
theorem goodEntry_ne_nil {e : List Char} (hg : GoodEntry e) : e ≠ [] := by
  obtain ⟨c, _, hcase⟩ := hg
  rcases hcase with ⟨h, t, _, _, _, rfl⟩ | ⟨b, _, _, rfl⟩ <;>
    simp [fmtComma, fmtPlain, fmtHead]

/-- Canonical entries contain no line-boundary characters. -/
theorem goodEntry_noBreak {e : List Char} (hg : GoodEntry e) :
    ∀ x ∈ e, isLineBreak x = false := by
  obtain ⟨c, habc, hcase⟩ := hg
  have hcb : isLineBreak c = false := by rcases habc with rfl | rfl | rfl <;> decide
  rcases hcase with ⟨h, t, ⟨_, hbh⟩, _, ⟨_, hbt⟩, rfl⟩ | ⟨b, ⟨_, hbb⟩, _, rfl⟩
  · intro x hx
    have hmem : x = c ∨ x = '.' ∨ x = ' ' ∨ x = '*' ∨ x = ',' ∨ x ∈ h ∨ x ∈ t := by
      simp only [fmtComma, fmtHead, List.mem_append, List.cons_append,
        List.nil_append, List.mem_cons, List.not_mem_nil, or_false] at hx
      tauto
    rcases hmem with rfl | rfl | rfl | rfl | rfl | hm | hm
    · exact hcb
    · decide
    · decide
    · decide
    · decide
    · exact hbh x hm
    · exact hbt x hm
  · intro x hx
    have hmem : x = c ∨ x = '.' ∨ x = ' ' ∨ x = '*' ∨ x ∈ b := by
      simp only [fmtPlain, fmtHead, List.mem_append, List.cons_append,
        List.nil_append, List.mem_cons, List.not_mem_nil, or_false] at hx
      tauto
    rcases hmem with rfl | rfl | rfl | rfl | hm
    · exact hcb
    · decide
    · decide
    · decide
    · exact hbb x hm

/-- A list with non-whitespace first and last characters is strip-fixed. -/
theorem stripPy_cons_snoc {c d : Char} {m : List Char} (hc : isSpacePy c = false)
    (hd : isSpacePy d = false) : stripPy (c :: (m ++ [d])) = c :: (m ++ [d]) := by
  apply stripPy_eq_self
  · intro x hx
    simp only [List.head?_cons, Option.some.injEq] at hx
    subst hx
    exact hc
  · intro x hx
    have hrev : (c :: (m ++ [d])).reverse = d :: (m.reverse ++ [c]) := by simp
    rw [hrev] at hx
    simp only [List.head?_cons, Option.some.injEq] at hx
    subst hx
    exact hd

/-- Stripping a list that ends in a single trailing space after a
non-whitespace character removes exactly that space. -/
theorem stripPy_cons_snoc_space {c d : Char} {m : List Char}
    (hc : isSpacePy c = false) (hd : isSpacePy d = false) :
    stripPy (c :: (m ++ [d, ' '])) = c :: (m ++ [d]) := by
  unfold stripPy
  rw [trimStart_eq_self (by
    intro x hx
    simp only [List.head?_cons, Option.some.injEq] at hx
    subst hx
    exact hc)]
  unfold trimEnd
  have hrev : (c :: (m ++ [d, ' '])).reverse = ' ' :: (d :: (m.reverse ++ [c])) := by
    simp
  rw [hrev, List.dropWhile_cons_of_pos (by decide),
    List.dropWhile_cons_of_neg (by simp [hd])]
  simp

/-- A leading space disappears under stripping. -/
theorem stripPy_cons_space (t : List Char) : stripPy (' ' :: t) = stripPy t := by
  unfold stripPy trimStart
  rw [List.dropWhile_cons_of_pos (by decide)]

/-- Reformatting a re-parsed comma body re-bolds the (already bolded)
head. -/
theorem formatLine_comma_calc {c : Char} {h post t : List Char}
    (hfix : stripPy ('*' :: '*' :: (h ++ ('*' :: '*' :: ',' :: post))) =
      '*' :: '*' :: (h ++ ('*' :: '*' :: ',' :: post)))
    (hnch : noComma h) (hpost : stripPy post = t) :
    formatLine c ('*' :: '*' :: (h ++ ('*' :: '*' :: ',' :: post))) =
      fmtComma c ('*' :: '*' :: (h ++ ['*', '*'])) t := by
  simp only [formatLine]
  rw [hfix]
  rw [if_pos (by rw [List.any_eq_true]; exact ⟨',', by simp, by simp⟩)]
  rw [show ('*' :: '*' :: (h ++ ('*' :: '*' :: ',' :: post)) : List Char) =
      ('*' :: '*' :: (h ++ ['*', '*'])) ++ ',' :: post from by simp]
  rw [splitComma_append (by
    intro x hx
    simp only [List.mem_cons, List.mem_append] at hx
    rcases hx with rfl | rfl | hx | hx
    · decide
    · decide
    · exact hnch x hx
    · rcases hx with rfl | hx
      · decide
      · simp at hx
        subst hx
        decide) post]
  rw [hpost]
  rw [show stripPy ('*' :: '*' :: (h ++ ['*', '*'])) = '*' :: '*' :: (h ++ ['*', '*']) from
    stripPy_eq_self
      (by
        intro x hx
        simp only [List.head?_cons, Option.some.injEq] at hx
        subst hx
        decide)
      (by
        intro x hx
        simp at hx
        subst hx
        decide)]
  simp [fmtComma, fmtHead]

/-- Reformatting a re-parsed plain body re-bolds the (already bolded)
body. -/
theorem formatLine_plain_calc {c : Char} {b : List Char}
    (hfix : stripPy ('*' :: '*' :: (b ++ ['*', '*'])) = '*' :: '*' :: (b ++ ['*', '*']))
    (hncb : noComma b) :
    formatLine c ('*' :: '*' :: (b ++ ['*', '*'])) =
      fmtPlain c ('*' :: '*' :: (b ++ ['*', '*'])) := by
  simp only [formatLine]
  rw [hfix]
  rw [if_neg (by
    intro hcon
    rw [List.any_eq_true] at hcon
    obtain ⟨x, hx, hx2⟩ := hcon
    simp only [decide_eq_true_eq] at hx2
    subst hx2
    simp only [List.mem_cons, List.mem_append] at hx
    rcases hx with hx | hx | hx | hx
    · exact absurd hx (by decide)
    · exact absurd hx (by decide)
    · exact hncb ',' hx rfl
    · rcases hx with hx | hx
      · exact absurd hx (by decide)
      · simp at hx)]
  simp [fmtPlain, fmtHead]

/-- Package the per-case reparse computation into the reparse facts. -/
theorem reparse_package (e s rest body0 out : List Char) (c : Char)
    (hstrip : stripPy e = s) (hs : s = c :: '.' :: rest)
    (hparse : parseLine s = some (c, body0))
    (hfmt : formatLine c body0 = out)
    (hlen : out.length = e.length + 4) :
    (stripPy e).isEmpty = false ∧
    (parseLine (stripPy e)).map (fun p => formatLine p.1 p.2) = some (reboldEntry e) ∧
    (reboldEntry e).length = e.length + 4 := by
  have hreb : reboldEntry e = out := by
    unfold reboldEntry
    rw [hstrip, hparse]
    exact hfmt
  refine ⟨?_, ?_, ?_⟩
  · rw [hstrip, hs]
    rfl
  · rw [hstrip, hparse, Option.map_some', hreb, hfmt]
  · rw [hreb, hlen]

/-- Feeding a canonical entry back through the line pipeline succeeds and
wraps the head in one extra pair of asterisks, lengthening it by 4. -/
theorem goodEntry_reparse {e : List Char} (hg : GoodEntry e) :
    (stripPy e).isEmpty = false ∧
    (parseLine (stripPy e)).map (fun p => formatLine p.1 p.2) = some (reboldEntry e) ∧
    (reboldEntry e).length = e.length + 4 := by
  obtain ⟨c, habc, hcase⟩ := hg
  have hcsp : isSpacePy c = false := by rcases habc with rfl | rfl | rfl <;> decide
  rcases hcase with ⟨h, t, ⟨hsh, hbh⟩, hnch, ⟨hst, hbt⟩, rfl⟩ | ⟨b, ⟨hsb, hbb⟩, hncb, rfl⟩
  · -- comma form
    rcases ht : t.reverse with _ | ⟨d, tr⟩
    · -- empty tail: the entry ends "**, " and stripping removes the space
      have ht0 : t = [] := by simpa using congrArg List.reverse ht
      subst ht0
      refine reparse_package (fmtComma c h [])
        (c :: '.' :: (' ' :: '*' :: '*' :: (h ++ ['*', '*', ','])))
        (' ' :: '*' :: '*' :: (h ++ ['*', '*', ',']))
        ('*' :: '*' :: (h ++ ['*', '*', ',']))
        (fmtComma c ('*' :: '*' :: (h ++ ['*', '*'])) []) c ?_ rfl ?_ ?_ ?_
      · rw [show (fmtComma c h [] : List Char) =
            c :: (('.' :: ' ' :: '*' :: '*' :: (h ++ ['*', '*'])) ++ [',', ' '])
          from by simp [fmtComma, fmtHead]]
        rw [stripPy_cons_snoc_space hcsp (by decide)]
        simp
      · simp only [parseLine]
        rw [if_pos ⟨habc, trivial⟩, List.dropWhile_cons_of_pos (by decide),
          List.dropWhile_cons_of_neg (by decide)]
      · refine formatLine_comma_calc ?_ hnch rfl
        rw [show ('*' :: '*' :: (h ++ ('*' :: '*' :: ',' :: ([] : List Char))) : List Char) =
            '*' :: (('*' :: (h ++ ['*', '*'])) ++ [',']) from by simp]
        exact stripPy_cons_snoc (by decide) (by decide)
      · simp [fmtComma, fmtHead, List.length_append]
    · -- nonempty tail ending in a non-whitespace character
      have ht2 : t = tr.reverse ++ [d] := by
        have := congrArg List.reverse ht
        simpa using this
      have hd : isSpacePy d = false := strip_fix_last hst d (by rw [ht]; rfl)
      subst ht2
      refine reparse_package (fmtComma c h (tr.reverse ++ [d]))
        (c :: '.' :: (' ' :: '*' :: '*' ::
          (h ++ ('*' :: '*' :: ',' :: ' ' :: (tr.reverse ++ [d])))))
        (' ' :: '*' :: '*' :: (h ++ ('*' :: '*' :: ',' :: ' ' :: (tr.reverse ++ [d]))))
        ('*' :: '*' :: (h ++ ('*' :: '*' :: ',' :: ' ' :: (tr.reverse ++ [d]))))
        (fmtComma c ('*' :: '*' :: (h ++ ['*', '*'])) (tr.reverse ++ [d])) c ?_ rfl ?_ ?_ ?_
      · rw [show (fmtComma c h (tr.reverse ++ [d]) : List Char) =
            c :: (('.' :: ' ' :: '*' :: '*' ::
              (h ++ ('*' :: '*' :: ',' :: ' ' :: tr.reverse))) ++ [d])
          from by simp [fmtComma, fmtHead]]
        rw [stripPy_cons_snoc hcsp hd]
        simp
      · simp only [parseLine]
        rw [if_pos ⟨habc, trivial⟩, List.dropWhile_cons_of_pos (by decide),
          List.dropWhile_cons_of_neg (by decide)]
      · refine formatLine_comma_calc ?_ hnch ?_
        · rw [show ('*' :: '*' ::
              (h ++ ('*' :: '*' :: ',' :: (' ' :: (tr.reverse ++ [d])))) : List Char) =
              '*' :: (('*' :: (h ++ ('*' :: '*' :: ',' :: ' ' :: tr.reverse))) ++ [d])
            from by simp]
          exact stripPy_cons_snoc (by decide) hd
        · rw [stripPy_cons_space]
          exact hst
      · simp [fmtComma, fmtHead, List.length_append]
        omega
  · -- plain form
    refine reparse_package (fmtPlain c b)
      (c :: '.' :: (' ' :: '*' :: '*' :: (b ++ ['*', '*'])))
      (' ' :: '*' :: '*' :: (b ++ ['*', '*']))
      ('*' :: '*' :: (b ++ ['*', '*']))
      (fmtPlain c ('*' :: '*' :: (b ++ ['*', '*']))) c ?_ rfl ?_ ?_ ?_
    · rw [show (fmtPlain c b : List Char) =
          c :: (('.' :: ' ' :: '*' :: '*' :: (b ++ ['*'])) ++ ['*'])
        from by simp [fmtPlain, fmtHead]]
      rw [stripPy_cons_snoc hcsp (by decide)]
      simp
    · simp only [parseLine]
      rw [if_pos ⟨habc, trivial⟩, List.dropWhile_cons_of_pos (by decide),
        List.dropWhile_cons_of_neg (by decide)]
    · refine formatLine_plain_calc ?_ hncb
      rw [show ('*' :: '*' :: (b ++ ['*', '*']) : List Char) =
          '*' :: (('*' :: (b ++ ['*'])) ++ ['*']) from by simp]
      exact stripPy_cons_snoc (by decide) (by decide)
    · simp [fmtPlain, fmtHead, List.length_append]

/-! ### Claim theorems -/

/-- C2 (amended): `normalize_options` is not idempotent.  Re-normalizing the
newline-join of its own output succeeds entry by entry, but each entry comes
back as `reboldEntry` of the original: the head is wrapped in one extra pair
of asterisks, making every re-normalized entry exactly 4 characters longer
than the original. -/
theorem claim2_renormalize_bolds (raw : List Char) :
    normalize_options (joinNL (normalize_options raw)) =
      (normalize_options raw).map reboldEntry ∧
    ∀ e ∈ normalize_options raw, (reboldEntry e).length = e.length + 4 := by
  have hlen := normalize_length raw
  have hgood := normalize_mem_good raw
  rw [List.length_eq_three] at hlen
  obtain ⟨e1, e2, e3, hout⟩ := hlen
  constructor
  · have hg1 : GoodEntry e1 := hgood e1 (by rw [hout]; simp)
    have hg2 : GoodEntry e2 := hgood e2 (by rw [hout]; simp)
    have hg3 : GoodEntry e3 := hgood e3 (by rw [hout]; simp)
    have hr1 := goodEntry_reparse hg1
    have hr2 := goodEntry_reparse hg2
    have hr3 := goodEntry_reparse hg3
    rw [hout]
    have hpicked : pickedLines (joinNL [e1, e2, e3]) =
        [reboldEntry e1, reboldEntry e2, reboldEntry e3] := by
      unfold pickedLines
      rw [splitLinesPy_join3 (goodEntry_noBreak hg1) (goodEntry_noBreak hg2)
        (goodEntry_noBreak hg3) (goodEntry_ne_nil hg3)]
      simp [hr1.1, hr2.1, hr3.1, hr1.2.1, hr2.2.1, hr3.2.1]
    unfold normalize_options
    rw [hpicked, padTo3_of_le (by simp)]
    rfl
  · intro e he
    exact (goodEntry_reparse (hgood e he)).2.2

/-- C2 counterexample: re-normalizing a normalized menu does not return it
unchanged. -/
theorem claim2_counterexample :
    normalize_options (joinNL (normalize_options "A. Sneak away\nB. Fight".data)) ≠
      normalize_options "A. Sneak away\nB. Fight".data := by
  decide

/-- C2 witness: the amended theorem applied to a concrete menu, and the
length growth of its first entry. -/
theorem claim2_witness :
    normalize_options (joinNL (normalize_options "A. Sneak away\nB. Fight".data)) =
      (normalize_options "A. Sneak away\nB. Fight".data).map reboldEntry ∧
    (reboldEntry "A. **Sneak away**".data).length =
      "A. **Sneak away**".data.length + 4 :=
  ⟨(claim2_renormalize_bolds "A. Sneak away\nB. Fight".data).1,
   (claim2_renormalize_bolds "A. Sneak away\nB. Fight".data).2
     "A. **Sneak away**".data (by decide)⟩

/-- C4 (amended): `normalize_options` always returns exactly 3 entries, each
of the canonical shape with a letter among A, B, C — the letter of the
matched input line, preserved rather than forced into A, B, C order; when
fewer than 3 lines match, the remaining positions hold the generic filler
labelled by position (0 gets A, 1 gets B, 2 gets C) regardless of the
letters already used; matching lines beyond 3 are truncated. -/
theorem claim4_normalize_shape (raw : List Char) :
    (normalize_options raw).length = 3 ∧
    (∀ e ∈ normalize_options raw, GoodEntry e) ∧
    (∀ i : Nat, i < 3 → (pickedLines raw).length ≤ i →
      (normalize_options raw)[i]? = some (fillerFor i)) ∧
    (3 ≤ (pickedLines raw).length →
      normalize_options raw = (pickedLines raw).take 3) := by
  refine ⟨normalize_length raw, normalize_mem_good raw, ?_, ?_⟩
  · intro i hi hle
    unfold normalize_options
    rcases hl : pickedLines raw with _ | ⟨a, _ | ⟨b, _ | ⟨c, rest⟩⟩⟩
    · rw [padTo3_nil]
      interval_cases i <;> rfl
    · rw [hl] at hle
      simp only [List.length_cons, List.length_nil, Nat.zero_add] at hle
      rw [padTo3_one]
      interval_cases i <;> rfl
    · rw [hl] at hle
      simp only [List.length_cons, List.length_nil, Nat.zero_add] at hle
      rw [padTo3_two]
      interval_cases i
      rfl
    · rw [hl] at hle
      simp at hle
      omega
  · intro h3
    unfold normalize_options
    rw [padTo3_of_le h3]

/-- C4 counterexample: on input "B. Fight" the first output entry keeps
letter B (not A), and the padding filler at position 1 reuses the
already-used letter B instead of the next unused one. -/
theorem claim4_counterexample :
    normalize_options "B. Fight".data =
      ["B. **Fight**".data,
       "B. **Explore another angle**, adapt your approach to the situation.".data,
       "C. **Explore another angle**, adapt your approach to the situation.".data] ∧
    stripHead "A. ".data ("B. **Fight**".data) = none := by
  decide

/-- C4 witness: a canonical entry membership, a positional filler and a
truncation instance of the amended theorem. -/
theorem claim4_witness :
    GoodEntry ("C. **Go**, now".data) ∧
    (normalize_options "C. Go, now".data)[2]? = some (fillerFor 2) ∧
    normalize_options "A. x\nB. y\nC. z\nA. w".data =
      (pickedLines "A. x\nB. y\nC. z\nA. w".data).take 3 :=
  ⟨(claim4_normalize_shape "C. Go, now".data).2.1 _ (by decide),
   (claim4_normalize_shape "C. Go, now".data).2.2.1 2 (by decide) (by decide),
   (claim4_normalize_shape "A. x\nB. y\nC. z\nA. w".data).2.2.2 (by decide)⟩

/-- C3: `extract_roll_total "I rolled 12"` is 12 and `"hello there"` yields
nothing, as claimed; but `"Rolled 1d20+3 = 15"` yields nothing rather than
the claimed 15: the second pattern `rolled[^\d]*(\d+)\b` requires a word
boundary directly after the first digit run following "rolled", which fails
between "1" and "d" in "1d20", even though the source's own comment lists
"Rolled 1d20+3 = 15" among the handled variants. -/
theorem claim3_extract_examples :
    extract_roll_total "I rolled 12".data = some 12 ∧
    extract_roll_total "Rolled 1d20+3 = 15".data = none ∧
    extract_roll_total "hello there".data = none := by
  decide

/-- C6: the option generator is total and deterministic: for every kind
(including unrecognized ones), skill and success flag, the selected menu has
exactly 3 entries beginning with "A. ", "B. ", "C. " in that order; in
particular for (check, persuasion, success). -/
theorem claim6_options_menu_ok (kind skill : Option String) (success : Option Bool) :
    menuOK (lettered_option_list kind skill success) = true := by
  unfold lettered_option_list lettered_option_core
  repeat' split
  all_goals decide

/-- C5: `evaluateOutcome` is a pure total function (a Lean function, so it
never raises); with kind attack and a present AC the success flag is the
comparison `total >= ac` and the summary states hit/miss; with kind check
(resp. save) and a present DC the flag is `total >= dc` and the summary
names the skill (resp. ability) when known ("" counts as unknown, as in
Python's `skill or 'ability'`), else "ability" (resp. "saving"); initiative
has no success flag and notes the total; any other kind records the total
with no success flag. -/
theorem claim5_evaluate_outcome (sk : Option String) (d a : Option Nat) (total : Nat) :
    (∀ av, evaluateOutcome ⟨some "attack", sk, d, some av⟩ total =
      ⟨total, some (decide (av ≤ total)),
       "Your attack roll is " ++ toString total ++ " " ++
         (if av ≤ total then "(hit)" else "(miss)") ++ "."⟩) ∧
    (∀ dv, evaluateOutcome ⟨some "check", sk, some dv, a⟩ total =
      ⟨total, some (decide (dv ≤ total)),
       "Your " ++ pyOrStr sk "ability" ++ " check is " ++ toString total ++ " " ++
         (if dv ≤ total then "(success)" else "(failure)") ++ "."⟩) ∧
    (∀ dv, evaluateOutcome ⟨some "save", sk, some dv, a⟩ total =
      ⟨total, some (decide (dv ≤ total)),
       "Your " ++ pyOrStr sk "saving" ++ " throw is " ++ toString total ++ " " ++
         (if dv ≤ total then "(success)" else "(failure)") ++ "."⟩) ∧
    (evaluateOutcome ⟨some "initiative", sk, d, a⟩ total =
      ⟨total, none, "Initiative noted: " ++ toString total ++ "."⟩) ∧
    (∀ k, k ≠ some "initiative" → k ≠ some "attack" → k ≠ some "save" →
      k ≠ some "check" →
      evaluateOutcome ⟨k, sk, d, a⟩ total =
        ⟨total, none, "Roll total recorded: " ++ toString total ++ "."⟩) := by
  refine ⟨fun av => ?_, fun dv => ?_, fun dv => ?_, ?_, fun k h1 h2 h3 h4 => ?_⟩
  · cases d <;> simp [evaluateOutcome, success_flag, success_flag_cs, outcome_line]
  · cases a <;> simp [evaluateOutcome, success_flag, success_flag_cs, outcome_line]
  · cases a <;> simp [evaluateOutcome, success_flag, success_flag_cs, outcome_line]
  · cases d <;> cases a <;>
      simp [evaluateOutcome, success_flag, success_flag_cs, outcome_line]
  · cases k with
    | none =>
      cases d <;> cases a <;>
        simp [evaluateOutcome, success_flag, success_flag_cs, outcome_line]
    | some s =>
      cases d <;> cases a <;>
        simp_all [evaluateOutcome, success_flag, success_flag_cs, outcome_line]

/-- C5 witness: concrete instances of the attack clause and the
unrecognized-kind clause. -/
theorem claim5_witness :
    evaluateOutcome ⟨some "attack", some "stealth", none, some 13⟩ 15 =
      ⟨15, some true, "Your attack roll is 15 (hit)."⟩ ∧
    evaluateOutcome ⟨some "damage", some "stealth", some 10, some 11⟩ 7 =
      ⟨7, none, "Roll total recorded: 7."⟩ := by
  constructor
  · have h := (claim5_evaluate_outcome (some "stealth") none (some 13) 15).1 13
    simpa using h
  · exact (claim5_evaluate_outcome (some "stealth") (some 10) (some 11) 7).2.2.2.2
      (some "damage") (by decide) (by decide) (by decide) (by decide)

/-- C10 (implicit): whenever the roll-follow-up path fires, i.e. the player
message contains an extractable roll total, the returned response carries an
empty `roll_requests` list, whatever the history contains. -/
theorem claim10_followup_empty_requests (msg : String) (history : List Turn)
    (t : Nat) (h : extract_roll_total msg.data = some t) :
    ∃ r, roll_followup_from_history msg history = some r ∧ r.roll_requests = [] := by
  unfold roll_followup_from_history
  rw [h]
  exact ⟨_, rfl, rfl⟩

/-- C10 witness: the follow-up fires on "i rolled 12" with empty history and
returns no roll requests. -/
theorem claim10_witness :
    ∃ r, roll_followup_from_history "i rolled 12" [] = some r ∧
      r.roll_requests = [] :=
  claim10_followup_empty_requests "i rolled 12" [] 12 (by decide)

/-- C9: whenever "save" occurs in the lower-cased player message, the
heuristic classifier's output is exactly the request list built by the
earlier clauses followed by one appended saving-throw request carrying the
DC parsed from the message (`none` when no DC is stated). -/
theorem claim9_save_appended (msg : String)
    (h : hasSub "save".data (lowerL msg.data) = true) :
    heuristic_requests msg =
      classify_pre msg ++
        [⟨"save", some "1d20+2", some "Saving throw", searchDC (lowerL msg.data), none⟩] := by
  unfold heuristic_requests
  simp [h]

/-- C9 witness: "i attack and save dc 14" keeps its attack request and gains
a saving-throw request with DC 14. -/
theorem claim9_witness :
    heuristic_requests "i attack and save dc 14" =
      classify_pre "i attack and save dc 14" ++
        [⟨"save", some "1d20+2", some "Saving throw", some 14, none⟩] := by
  have h := claim9_save_appended "i attack and save dc 14" (by decide)
  rw [h]
  decide

/-- C1 (amended): the DC (resp. AC) retained by `resolvePendingRoll` is the
value found last during the most-recent-first scan, i.e. the mention in the
scanned turn farthest from the end of the history (the oldest scanned
mention up to and including the terminating turn) — not the most recent
mention as claimed. -/
theorem claim1_oldest_scanned_target_wins (history : List Turn) :
    (∀ v, (scannedTurns history).reverse.findSome? dcOfTurn = some v →
      (resolvePendingRoll history).dc = some v) ∧
    (∀ v, (scannedTurns history).reverse.findSome? acOfTurn = some v →
      (resolvePendingRoll history).ac = some v) := by
  constructor
  · intro v hv
    apply resolve_dc_of_some
    have h := scanLoop_proj ScanAcc.dc dcOfTurn scanTurn_dc
      (history.reverse.take 8) initAcc rfl
    rw [foldl_orUpd_findSome] at h
    unfold scannedTurns at hv
    unfold scanState
    rw [h, hv]
    rfl
  · intro v hv
    apply resolve_ac_of_some
    have h := scanLoop_proj ScanAcc.ac acOfTurn scanTurn_ac
      (history.reverse.take 8) initAcc rfl
    rw [foldl_orUpd_findSome] at h
    unfold scannedTurns at hv
    unfold scanState
    rw [h, hv]
    rfl

/-- C1 counterexample: with two DC mentions among the scanned turns, the
most recent mention is DC 10, but the resolver keeps DC 15 from the older
scanned turn. -/
theorem claim1_counterexample :
    mostRecentScannedDC
        [⟨"assistant", "Make a stealth check."⟩,
         ⟨"assistant", "The lock is DC 15."⟩,
         ⟨"assistant", "The gate is DC 10."⟩] = some 10 ∧
    (resolvePendingRoll
        [⟨"assistant", "Make a stealth check."⟩,
         ⟨"assistant", "The lock is DC 15."⟩,
         ⟨"assistant", "The gate is DC 10."⟩]).dc = some 15 ∧
    (resolvePendingRoll
        [⟨"assistant", "Make a stealth check."⟩,
         ⟨"assistant", "The lock is DC 15."⟩,
         ⟨"assistant", "The gate is DC 10."⟩]).dc ≠ some 10 := by
  decide

/-- C1 witness: the amended theorem applied to the two-DC history. -/
theorem claim1_witness :
    (resolvePendingRoll
        [⟨"assistant", "Make a stealth check."⟩,
         ⟨"assistant", "The lock is DC 15."⟩,
         ⟨"assistant", "The gate is DC 10."⟩]).dc = some 15 :=
  (claim1_oldest_scanned_target_wins _).1 15 (by decide)

/-- C7: the resolver depends only on the last 8 turns; moreover turns
strictly older than a kind-yielding turn that is preceded (on the
most-recent side) only by non-yielding turns never influence the result.
The embedding is a pure function of the history list, so the history is
never mutated. -/
theorem claim7_locality :
    (∀ h1 h2 : List Turn, lastEight h1 = lastEight h2 →
      resolvePendingRoll h1 = resolvePendingRoll h2) ∧
    (∀ (older1 older2 newer : List Turn) (t : Turn),
      yieldsKind t = true →
      (∀ u ∈ newer, yieldsKind u = false) →
      newer.length + 1 ≤ 8 →
      resolvePendingRoll (older1 ++ t :: newer) =
        resolvePendingRoll (older2 ++ t :: newer)) := by
  constructor
  · intro h1 h2 h
    have hw : h1.reverse.take 8 = h2.reverse.take 8 := by
      have := congrArg List.reverse h
      simpa [lastEight] using this
    unfold resolvePendingRoll scanState
    rw [hw]
  · intro o1 o2 newer t ht hnew hlen
    have key : ∀ o : List Turn,
        (o ++ t :: newer).reverse.take 8 =
          newer.reverse ++ t :: o.reverse.take (8 - newer.length - 1) := by
      intro o
      rw [List.reverse_append, List.reverse_cons, List.append_assoc,
        List.singleton_append, List.take_append_eq_append_take,
        List.take_of_length_le (by simpa using (by omega : newer.length ≤ 8)),
        List.length_reverse]
      congr 1
      nth_rewrite 1 [show 8 - newer.length = (8 - newer.length - 1) + 1 from by omega]
      rw [List.take_succ_cons]
    have hs : scanState (o1 ++ t :: newer) = scanState (o2 ++ t :: newer) := by
      unfold scanState
      rw [key o1, key o2]
      exact scanLoop_stops t ht newer.reverse initAcc rfl
        (fun u hu => hnew u (by simpa using hu)) _ _
    unfold resolvePendingRoll
    rw [hs]

/-- C7 witness: a 9-turn history agrees with one differing in its dropped
oldest turn, and two histories differing only in a turn older than the
kind-yielding one resolve identically. -/
theorem claim7_witness :
    resolvePendingRoll (⟨"user", "hello"⟩ :: List.replicate 8 ⟨"user", "..."⟩) =
      resolvePendingRoll
        (⟨"assistant", "make an attack roll"⟩ :: List.replicate 8 ⟨"user", "..."⟩) ∧
    resolvePendingRoll
        ([⟨"assistant", "the trap is dc 5"⟩] ++
          ⟨"assistant", "make a stealth check"⟩ :: [⟨"user", "ok"⟩]) =
      resolvePendingRoll
        ([⟨"assistant", "the trap is dc 9"⟩] ++
          ⟨"assistant", "make a stealth check"⟩ :: [⟨"user", "ok"⟩]) :=
  ⟨claim7_locality.1 _ _ (by decide),
   claim7_locality.2 _ _ _ _ (by decide) (by decide) (by decide)⟩

/-- C8: default targets are injected exactly when the scan classified a kind
but captured no matching target: check without DC gets 12, save without DC
gets 13, attack without AC gets 13; a captured DC or AC is kept unchanged. -/
theorem claim8_default_targets (history : List Turn) :
    ((scanState history).kind = some "check" → (scanState history).dc = none →
      (resolvePendingRoll history).dc = some 12) ∧
    ((scanState history).kind = some "save" → (scanState history).dc = none →
      (resolvePendingRoll history).dc = some 13) ∧
    ((scanState history).kind = some "attack" → (scanState history).ac = none →
      (resolvePendingRoll history).ac = some 13) ∧
    (∀ v, (scanState history).dc = some v → (resolvePendingRoll history).dc = some v) ∧
    (∀ v, (scanState history).ac = some v → (resolvePendingRoll history).ac = some v) := by
  refine ⟨?_, ?_, ?_, resolve_dc_of_some history, resolve_ac_of_some history⟩
  · intro h1 h2
    simp [resolvePendingRoll, h1, h2]
  · intro h1 h2
    simp [resolvePendingRoll, h1, h2]
  · intro h1 h2
    simp [resolvePendingRoll, h1, h2]

/-- C8 witness: one concrete history per default, plus a captured DC that is
kept. -/
theorem claim8_witness :
    (resolvePendingRoll [⟨"assistant", "Make a stealth check."⟩]).dc = some 12 ∧
    (resolvePendingRoll [⟨"assistant", "Make a dexterity saving throw!"⟩]).dc = some 13 ∧
    (resolvePendingRoll [⟨"assistant", "Make an attack roll."⟩]).ac = some 13 ∧
    (resolvePendingRoll [⟨"assistant", "Make a stealth check. DC 20"⟩]).dc = some 20 :=
  ⟨(claim8_default_targets _).1 (by decide) (by decide),
   (claim8_default_targets _).2.1 (by decide) (by decide),
   (claim8_default_targets _).2.2.1 (by decide) (by decide),
   (claim8_default_targets _).2.2.2.1 20 (by decide)⟩

end DMCore
